import Mathlib

/-!
Shallow embedding of the chess adjudication-rule analyzer
(src/main.rs, src/game_data.rs, src/rule_test.rs).

Machine integers (i32 / u32) are modelled as Int / Nat.  Where the program
can leave the machine range - the str::parse range checks of the rule-string
parsers, and the parse-then-scale arithmetic of the comment parser's
get_eval / get_time, whose unwraps panic on out-of-range captures (the
repository builds and tests with the checked profile, where the scaling
arithmetic also panics instead of wrapping) - the embedding carries explicit
2^31 / 2^32 bounds, and a Rust panic (failed unwrap, checked-arithmetic
overflow, out-of-bounds index) is a dedicated `panicked` outcome.  The
unchecked scanner `CommentParser.parse` gives the match structure and the
in-range value semantics; `CommentParser.parseChecked` adds the panic
behaviour of the numeric conversions.  Other fallible code is modelled with
Option / Except.
-/

/-- One per-move record: engine evaluation in centipawns after the move and
time taken in milliseconds (struct MoveData in main.rs). -/
structure MoveData where
  eval : Int
  time : Nat
deriving DecidableEq, Repr

/-- One validated game: the real result scaled by ten (1-0 is 10, draw is 5,
0-1 is 0) and the per-ply move data (struct GameData in main.rs). -/
structure GameData where
  score10 : Nat
  move_data : List MoveData
deriving DecidableEq, Repr

/-- Game termination tag of the external PGN library, as consumed by
map_single_game_data. -/
inductive GameTermination where
  | WhiteWins
  | DrawnGame
  | BlackWins
  | Unknown
deriving DecidableEq, Repr

/-- The slice of the external Move struct that map_single_game_data reads:
the optional comment attached to the move. -/
structure RawMove where
  comment : Option String
deriving DecidableEq, Repr

/-- The slice of the external Game struct that map_single_game_data reads. -/
structure Game where
  termination : GameTermination
  moves : List RawMove
deriving DecidableEq, Repr

/-- Per-game mapping failure (enum GameError in game_data.rs). -/
inductive GameError where
  | UnknownGameTermination
  | MissingComment (ply : Nat)
  | BadComment (ply : Nat)
deriving DecidableEq, Repr

/-- Batch mapping failure: the 1-based number of the offending game plus its
per-game error (struct GameMappingError in game_data.rs). -/
structure GameMappingError where
  game_number : Nat
  error : GameError
deriving DecidableEq, Repr

/-- Longest prefix of digit characters together with the rest of the input:
the behaviour of a greedy regex digit-class quantifier at a fixed position. -/
def takeDigits : List Char → List Char × List Char
  | [] => ([], [])
  | c :: cs =>
    if c.isDigit then
      let p := takeDigits cs
      (c :: p.1, p.2)
    else ([], c :: cs)

/-- Decimal value of a digit string, as Rust's str::parse computes it. -/
def digitsToNat (ds : List Char) : Nat :=
  ds.foldl (fun a c => 10 * a + (c.toNat - 48)) 0

/-- Time field, final stage: the 1-to-3 digit fractional part followed by the
literal s, scaled by 10^(3-L) as in CommentParser::get_time. -/
def parseFrac (base : Nat) (ev : Int) : List Char × List Char → Option MoveData
  | (fs, rest) =>
    match rest with
    | [] => none
    | c :: _ =>
      if c = 's' ∧ 1 ≤ fs.length ∧ fs.length ≤ 3 then
        some ⟨ev, base + 10 ^ (3 - fs.length) * digitsToNat fs⟩
      else none

/-- Time field after the greedy seconds digits have been taken. -/
def parseTime2 (ev : Int) : List Char × List Char → Option MoveData
  | (ds, rest) =>
    if ds = [] then none
    else
      match rest with
      | [] => none
      | c :: rest2 =>
        if c = '.' then parseFrac (1000 * digitsToNat ds) ev (takeDigits rest2)
        else if c = 's' then some ⟨ev, 1000 * digitsToNat ds⟩
        else none

/-- Time field of the annotation: integer seconds, optional dot plus 1-3
fractional digits, then the literal s (trailing input ignored). -/
def parseTime (ev : Int) (cs : List Char) : Option MoveData :=
  parseTime2 ev (takeDigits cs)

/-- Depth field after the slash: one or more digits, then exactly one
whitespace character, then the time field. -/
def parseDepth (ev : Int) : List Char × List Char → Option MoveData
  | (ds, rest) =>
    if ds = [] then none
    else
      match rest with
      | [] => none
      | w :: rest2 => if w.isWhitespace then parseTime ev rest2 else none

/-- After the evaluation: a literal slash then the depth field. -/
def parseAfterEval (ev : Int) (cs : List Char) : Option MoveData :=
  match cs with
  | [] => none
  | c :: rest => if c = '/' then parseDepth ev (takeDigits rest) else none

/-- Mate evaluation: the digits after M (at least one), magnitude 10000. -/
def parseMate (sgn : Int) : List Char × List Char → Option MoveData
  | (ds, rest) => if ds = [] then none else parseAfterEval (sgn * 10000) rest

/-- Numeric evaluation: one or more integer digits, a dot, exactly two
fractional digits; value integer*100 + fraction as in get_eval. -/
def parseEvalNum (sgn : Int) : List Char × List Char → Option MoveData
  | (ds, rest) =>
    if ds = [] then none
    else
      match rest with
      | c :: d1 :: d2 :: rest2 =>
        if c = '.' ∧ d1.isDigit ∧ d2.isDigit then
          parseAfterEval
            (sgn * (Int.ofNat (100 * digitsToNat ds + digitsToNat [d1, d2])))
            rest2
        else none
      | _ => none

/-- Evaluation after the optional sign: either a mate marker or a two-decimal
number. -/
def parseAfterSign (sgn : Int) (cs : List Char) : Option MoveData :=
  match cs with
  | [] => none
  | c :: rest =>
    if c = 'M' then parseMate sgn (takeDigits rest)
    else parseEvalNum sgn (takeDigits (c :: rest))

/-- Deterministic scanner equivalent to the anchored regex of
CommentParser::new: optional sign, mate marker or two-decimal evaluation,
slash, depth digits, one whitespace, seconds with optional 1-3 digit
fraction, literal s; trailing characters are ignored. -/
def parseComment (cs : List Char) : Option MoveData :=
  match cs with
  | [] => none
  | c :: rest =>
    if c = '-' then parseAfterSign (-1) rest
    else if c = '+' then parseAfterSign 1 rest
    else parseAfterSign 1 (c :: rest)

/-- CommentParser::parse of game_data.rs on a whole string. -/
def CommentParser.parse (s : String) : Option MoveData :=
  parseComment s.data

/-- Score mapping of map_single_game_data: WhiteWins 10, DrawnGame 5,
BlackWins 0, Unknown rejected. -/
def termScore10 : GameTermination → Option Nat
  | GameTermination.WhiteWins => some 10
  | GameTermination.DrawnGame => some 5
  | GameTermination.BlackWins => some 0
  | GameTermination.Unknown => none

/-- The ply loop of map_single_game_data: at 0-based ply index, a missing
comment fails with MissingComment at that index, an unparsable comment fails
with BadComment at index plus one. -/
def mapMoves (ply : Nat) : List RawMove → Except GameError (List MoveData)
  | [] => Except.ok []
  | m :: ms =>
    match m.comment with
    | none => Except.error (GameError.MissingComment ply)
    | some c =>
      match CommentParser.parse c with
      | none => Except.error (GameError.BadComment (ply + 1))
      | some md => (mapMoves (ply + 1) ms).map (fun tl => md :: tl)

/-- map_single_game_data of game_data.rs. -/
def map_single_game_data (game : Game) : Except GameError GameData :=
  match termScore10 game.termination with
  | none => Except.error GameError.UnknownGameTermination
  | some sc => (mapMoves 0 game.moves).map (fun mds => ⟨sc, mds⟩)

/-- The indexed loop of map_game_data: the parameter counts the games already
mapped, so a failure at the head is reported with that count plus one. -/
def mapGamesAux (k : Nat) : List Game → Except GameMappingError (List GameData)
  | [] => Except.ok []
  | g :: gs =>
    match map_single_game_data g with
    | Except.ok gd => (mapGamesAux (k + 1) gs).map (fun tl => gd :: tl)
    | Except.error e => Except.error ⟨k + 1, e⟩

/-- map_game_data of game_data.rs: maps games in order, stopping at the first
failure, which is reported with the 1-based game number. -/
def map_game_data (games : List Game) : Except GameMappingError (List GameData) :=
  mapGamesAux 0 games

/-- Resignation rule of rule_test.rs: an engine resigns when its eval is at
most minus eval for count consecutive own moves. -/
structure ResignRule where
  eval : Int
  count : Nat
deriving DecidableEq, Repr

/-- Draw rule of rule_test.rs: applies on or after full move from_move when
the eval magnitude stays within eval. -/
structure DrawRule where
  from_move : Nat
  eval : Int
  count : Nat
deriving DecidableEq, Repr

/-- Error cases of parse_resign_rule. -/
inductive ResignRuleParsingError where
  | BadFormat
  | NonPositiveEval
  | NonPositiveCount
deriving DecidableEq, Repr

/-- Error cases of parse_draw_rule. -/
inductive DrawRuleParsingError where
  | BadFormat
  | NonPositiveFromMove
  | NegativeEval
  | NonPositiveCount
deriving DecidableEq, Repr

/-- Result of running a fallible Rust function that can also panic: ok,
returned error, or runtime panic (out-of-bounds index). -/
inductive RustOutcome (e a : Type) where
  | ok (value : a)
  | err (error : e)
  | panicked
deriving DecidableEq, Repr

/-- Rust str::split on a single separator character: always returns at least
one (possibly empty) piece. -/
def splitOnChar (sep : Char) : List Char → List (List Char)
  | [] => [[]]
  | c :: cs =>
    if c = sep then [] :: splitOnChar sep cs
    else
      match splitOnChar sep cs with
      | [] => [[c]]
      | h :: t => (c :: h) :: t

/-- Rust i32::from_str: optional sign, at least one digit, value within the
i32 range. -/
def parseI32 (cs : List Char) : Option Int :=
  match cs with
  | '+' :: ds =>
    if ds ≠ [] ∧ ∀ c ∈ ds, c.isDigit then
      if (digitsToNat ds : Int) < 2 ^ 31 then some (digitsToNat ds) else none
    else none
  | '-' :: ds =>
    if ds ≠ [] ∧ ∀ c ∈ ds, c.isDigit then
      if (digitsToNat ds : Int) ≤ 2 ^ 31 then some (-(digitsToNat ds : Int)) else none
    else none
  | ds =>
    if ds ≠ [] ∧ ∀ c ∈ ds, c.isDigit then
      if (digitsToNat ds : Int) < 2 ^ 31 then some (digitsToNat ds) else none
    else none

/-- Rust u32::from_str: optional plus sign, at least one digit, value within
the u32 range. -/
def parseU32 (cs : List Char) : Option Nat :=
  match cs with
  | '+' :: ds =>
    if ds ≠ [] ∧ ∀ c ∈ ds, c.isDigit then
      if digitsToNat ds < 2 ^ 32 then some (digitsToNat ds) else none
    else none
  | ds =>
    if ds ≠ [] ∧ ∀ c ∈ ds, c.isDigit then
      if digitsToNat ds < 2 ^ 32 then some (digitsToNat ds) else none
    else none

/-- parse_resign_rule of rule_test.rs: the literal none gives the disabled
sentinel; otherwise the input is split on a slash, the first piece parsed and
range-checked, and then the second piece is indexed without a bounds check,
which panics when no slash was present. -/
def parse_resign_rule (input : String) : RustOutcome ResignRuleParsingError ResignRule :=
  if input = "none" then RustOutcome.ok ⟨10000, 10000⟩
  else
    let args := splitOnChar '/' input.data
    match parseI32 (args.headD []) with
    | none => RustOutcome.err ResignRuleParsingError.BadFormat
    | some eval =>
      if eval ≤ 0 then RustOutcome.err ResignRuleParsingError.NonPositiveEval
      else
        match args.get? 1 with
        | none => RustOutcome.panicked
        | some a1 =>
          match parseU32 a1 with
          | none => RustOutcome.err ResignRuleParsingError.BadFormat
          | some count =>
            if count = 0 then RustOutcome.err ResignRuleParsingError.NonPositiveCount
            else RustOutcome.ok ⟨eval, count⟩

/-- parse_draw_rule of rule_test.rs: the literal none gives the disabled
sentinel; otherwise the input is split on a colon, from_move parsed from the
first piece, the second piece indexed without a bounds check (panics when no
colon is present) and split on a slash, eval parsed from its first piece, and
the count piece again indexed without a bounds check. -/
def parse_draw_rule (input : String) : RustOutcome DrawRuleParsingError DrawRule :=
  if input = "none" then RustOutcome.ok ⟨10000, 0, 10000⟩
  else
    let args1 := splitOnChar ':' input.data
    match parseU32 (args1.headD []) with
    | none => RustOutcome.err DrawRuleParsingError.BadFormat
    | some from_move =>
      if from_move = 0 then RustOutcome.err DrawRuleParsingError.NonPositiveFromMove
      else
        match args1.get? 1 with
        | none => RustOutcome.panicked
        | some a1 =>
          let args2 := splitOnChar '/' a1
          match parseI32 (args2.headD []) with
          | none => RustOutcome.err DrawRuleParsingError.BadFormat
          | some eval =>
            if eval ≤ 0 then RustOutcome.err DrawRuleParsingError.NegativeEval
            else
              match args2.get? 1 with
              | none => RustOutcome.panicked
              | some a2 =>
                match parseU32 a2 with
                | none => RustOutcome.err DrawRuleParsingError.BadFormat
                | some count =>
                  if count = 0 then RustOutcome.err DrawRuleParsingError.NonPositiveCount
                  else RustOutcome.ok ⟨from_move, eval, count⟩

/-- Hypothetical outcome of one game (struct GameStats in rule_test.rs). -/
structure GameStats where
  length : Nat
  time : Nat
  score10 : Nat
deriving DecidableEq, Repr

/-- Which rule fired (enum RuleType in rule_test.rs). -/
inductive RuleType where
  | Resign
  | Draw
deriving DecidableEq, Repr

/-- Result of adjudicating one game (struct AdjudicationOutcome). -/
structure AdjudicationOutcome where
  actual : GameStats
  rule_applied : Option RuleType
  adjudicated : GameStats
deriving DecidableEq, Repr

/-- Mutable loop state of adjudicate_game: the two per-side resignation
streak counters, the shared draw streak counter, the running time total, and
the latch (rule_applied together with the adjudicated stats). -/
structure AdjState where
  resign0 : Nat
  resign1 : Nat
  draw_count : Nat
  total_time : Nat
  rule_applied : Option RuleType
  adjudicated_outcome : Option GameStats
deriving DecidableEq, Repr

/-- Loop body of adjudicate_game at 0-based ply p: time always accumulates;
while no rule has fired, the draw check runs first (update the shared
counter, fire when the full-move gate and the doubled count are both met,
skipping the resign check), otherwise the resign check updates the counter of
side p mod 2 and fires on exact equality with the rule count. -/
def adjStep (rr : ResignRule) (dr : DrawRule) (p : Nat) (m : MoveData) (s : AdjState) : AdjState :=
  let total_time := s.total_time + m.time
  if s.adjudicated_outcome = none then
    let draw_count := if |m.eval| ≤ dr.eval then s.draw_count + 1 else 0
    if (p + 1) / 2 ≥ dr.from_move ∧ draw_count ≥ 2 * dr.count then
      { s with
        total_time := total_time
        draw_count := draw_count
        rule_applied := some RuleType.Draw
        adjudicated_outcome := some ⟨p + 1, total_time, 5⟩ }
    else
      let rcOld := if p % 2 = 0 then s.resign0 else s.resign1
      let rc := if m.eval ≤ -rr.eval then rcOld + 1 else 0
      { resign0 := if p % 2 = 0 then rc else s.resign0
        resign1 := if p % 2 = 0 then s.resign1 else rc
        draw_count := draw_count
        total_time := total_time
        rule_applied := if rc = rr.count then some RuleType.Resign else s.rule_applied
        adjudicated_outcome :=
          if rc = rr.count then
            some ⟨p + 1, total_time, if p % 2 = 0 then 0 else 10⟩
          else s.adjudicated_outcome }
  else { s with total_time := total_time }

/-- The enumerated ply loop of adjudicate_game, starting at ply index p. -/
def adjLoop (rr : ResignRule) (dr : DrawRule) : Nat → List MoveData → AdjState → AdjState
  | _, [], s => s
  | p, m :: ms, s => adjLoop rr dr (p + 1) ms (adjStep rr dr p m s)

/-- adjudicate_game of rule_test.rs. -/
def adjudicate_game (game : GameData) (rr : ResignRule) (dr : DrawRule) : AdjudicationOutcome :=
  let fin := adjLoop rr dr 0 game.move_data ⟨0, 0, 0, 0, none, none⟩
  let actual : GameStats := ⟨game.move_data.length, fin.total_time, game.score10⟩
  { actual := actual
    rule_applied := fin.rule_applied
    adjudicated := fin.adjudicated_outcome.getD actual }

/-- AdjudicationOutcome::correctly_adjudicated. -/
def AdjudicationOutcome.correctly_adjudicated (o : AdjudicationOutcome) : Bool :=
  o.actual.score10 == o.adjudicated.score10

/-- AdjudicationOutcome::time_saved, with the u32 round trip modelled as an
exact integer difference. -/
def AdjudicationOutcome.time_saved (o : AdjudicationOutcome) : Int :=
  if o.correctly_adjudicated then (o.actual.time : Int) - (o.adjudicated.time : Int) else 0

/-- AdjudicationOutcome::squared_error10. -/
def AdjudicationOutcome.squared_error10 (o : AdjudicationOutcome) : Int :=
  ((o.actual.score10 : Int) - (o.adjudicated.score10 : Int)) ^ 2

/-- Accumulator of test_rule in rule_test.rs: grand time totals plus the
per-category trigger, wrong-result, time-saved and squared-error sums. -/
structure RuleTestStats where
  actual_time : Nat
  adjudicated_time : Nat
  resign_num : Nat
  resign_num_wrong : Nat
  resign_time_saved : Int
  resign_squared_error10 : Int
  draw_num : Nat
  draw_num_wrong : Nat
  draw_time_saved : Int
  draw_squared_error10 : Int
deriving DecidableEq, Repr

/-- All-zero accumulator, as initialised at the top of test_rule. -/
def aggInit : RuleTestStats := ⟨0, 0, 0, 0, 0, 0, 0, 0, 0, 0⟩

/-- One iteration of the aggregation loop of test_rule: adjudicate the game,
update the category counters according to the rule applied, and accumulate
the grand time totals for every game. -/
def aggStep (rr : ResignRule) (dr : DrawRule) (st : RuleTestStats) (g : GameData) : RuleTestStats :=
  let o := adjudicate_game g rr dr
  let st1 := { st with
    actual_time := st.actual_time + o.actual.time
    adjudicated_time := st.adjudicated_time + o.adjudicated.time }
  match o.rule_applied with
  | some RuleType.Resign =>
    { st1 with
      resign_num := st1.resign_num + 1
      resign_num_wrong := st1.resign_num_wrong + (if o.correctly_adjudicated then 0 else 1)
      resign_time_saved := st1.resign_time_saved + o.time_saved
      resign_squared_error10 := st1.resign_squared_error10 + o.squared_error10 }
  | some RuleType.Draw =>
    { st1 with
      draw_num := st1.draw_num + 1
      draw_num_wrong := st1.draw_num_wrong + (if o.correctly_adjudicated then 0 else 1)
      draw_time_saved := st1.draw_time_saved + o.time_saved
      draw_squared_error10 := st1.draw_squared_error10 + o.squared_error10 }
  | none => st1

/-- The aggregation loop of test_rule over all games. -/
def test_rule_stats (games : List GameData) (rr : ResignRule) (dr : DrawRule) : RuleTestStats :=
  games.foldl (aggStep rr dr) aggInit

/-- Reported per-category mean squared error of test_rule: the category's
squared-error sum over 100 over the total game count (exact rational in
place of the f64 of the source). -/
def category_mse (sq : Int) (total_games : Nat) : ℚ :=
  (sq : ℚ) / 100 / (total_games : ℚ)

/-- Reported overall mean squared error of test_rule: both categories' sums
over 100 over the total game count. -/
def overall_mse (st : RuleTestStats) (total_games : Nat) : ℚ :=
  ((st.resign_squared_error10 : ℚ) + (st.draw_squared_error10 : ℚ)) / 100 / (total_games : ℚ)

/-- The per-game outcome list that test_rule folds over. -/
def outcomesOf (games : List GameData) (rr : ResignRule) (dr : DrawRule) : List AdjudicationOutcome :=
  games.map (fun g => adjudicate_game g rr dr)

/-- Outcomes of one category: those whose applied rule matches the tag. -/
def categoryOutcomes (os : List AdjudicationOutcome) (rt : RuleType) : List AdjudicationOutcome :=
  os.filter (fun o => o.rule_applied == some rt)

/-- Independent recomputation of a category's summed time saved from the
outcome list. -/
def specTimeSaved (os : List AdjudicationOutcome) (rt : RuleType) : Int :=
  ((categoryOutcomes os rt).map AdjudicationOutcome.time_saved).sum

/-- Independent recomputation of a category's summed squared error from the
outcome list. -/
def specSquaredError (os : List AdjudicationOutcome) (rt : RuleType) : Int :=
  ((categoryOutcomes os rt).map AdjudicationOutcome.squared_error10).sum

/-- Sign token of the annotation grammar: absent, plus, or minus. -/
inductive SignTok where
  | absent
  | plus
  | minus
deriving DecidableEq, Repr

/-- Characters contributed by the sign token. -/
def SignTok.chars : SignTok → List Char
  | SignTok.absent => []
  | SignTok.plus => ['+']
  | SignTok.minus => ['-']

/-- Sign factor applied to the evaluation magnitude. -/
def SignTok.val : SignTok → Int
  | SignTok.absent => 1
  | SignTok.plus => 1
  | SignTok.minus => -1

/-- Evaluation token of the annotation grammar: a mate marker with its depth
digits, or a decimal number with exactly two fractional digits. -/
inductive EvalTok where
  | mate (ds : List Char)
  | num (ds : List Char) (d1 d2 : Char)
deriving DecidableEq, Repr

/-- Characters contributed by the evaluation token. -/
def EvalTok.chars : EvalTok → List Char
  | EvalTok.mate ds => 'M' :: ds
  | EvalTok.num ds d1 d2 => ds ++ '.' :: [d1, d2]

/-- Well-formedness of the evaluation token: nonempty digit strings, and two
digit characters after the decimal point. -/
def EvalTok.wf : EvalTok → Prop
  | EvalTok.mate ds => ds ≠ [] ∧ ∀ c ∈ ds, c.isDigit
  | EvalTok.num ds d1 d2 => (ds ≠ [] ∧ ∀ c ∈ ds, c.isDigit) ∧ d1.isDigit ∧ d2.isDigit

instance : DecidablePred EvalTok.wf := fun t => by
  cases t <;> simp only [EvalTok.wf] <;> infer_instance

/-- Unsigned magnitude of the evaluation token, in centipawns. -/
def EvalTok.val : EvalTok → Int
  | EvalTok.mate _ => 10000
  | EvalTok.num ds d1 d2 => Int.ofNat (100 * digitsToNat ds + digitsToNat [d1, d2])

/-- Characters contributed by the optional fractional-seconds token. -/
def fracChars : Option (List Char) → List Char
  | none => []
  | some fs => '.' :: fs

/-- Milliseconds contributed by the optional fractional-seconds token. -/
def fracVal : Option (List Char) → Nat
  | none => 0
  | some fs => 10 ^ (3 - fs.length) * digitsToNat fs

/-- Well-formedness of the optional fractional-seconds token: one to three
digit characters when present. -/
def fracWf : Option (List Char) → Prop
  | none => True
  | some fs => (1 ≤ fs.length ∧ fs.length ≤ 3) ∧ ∀ c ∈ fs, c.isDigit

instance : DecidablePred fracWf := fun t => by
  cases t <;> simp only [fracWf] <;> infer_instance

/-- One derivation of the annotation grammar of CommentParser::new: sign,
evaluation, slash-delimited depth digits, one whitespace character, seconds
digits, optional fraction, and the trailing s. -/
structure Annot where
  sign : SignTok
  ev : EvalTok
  depth : List Char
  ws : Char
  secs : List Char
  frac : Option (List Char)
deriving DecidableEq, Repr

/-- Characters of a grammar derivation, in source order. -/
def Annot.chars (a : Annot) : List Char :=
  a.sign.chars ++ a.ev.chars ++ '/' :: a.depth ++ a.ws :: a.secs ++ fracChars a.frac ++ ['s']

/-- Well-formedness of a grammar derivation. -/
def Annot.wf (a : Annot) : Prop :=
  a.ev.wf ∧ (a.depth ≠ [] ∧ ∀ c ∈ a.depth, c.isDigit) ∧ a.ws.isWhitespace ∧
    (a.secs ≠ [] ∧ ∀ c ∈ a.secs, c.isDigit) ∧ fracWf a.frac

instance : DecidablePred Annot.wf := fun a => by
  simp only [Annot.wf]; infer_instance

/-- Evaluation in centipawns determined by a grammar derivation. -/
def Annot.evalVal (a : Annot) : Int := a.sign.val * a.ev.val

/-- Time in milliseconds determined by a grammar derivation. -/
def Annot.timeVal (a : Annot) : Nat := 1000 * digitsToNat a.secs + fracVal a.frac

/-- Time field with panic tracking, final stage: like parseFrac, but on a
full match the pending get_eval panic fires first, and get_time's
1000*seconds plus scaled fraction must fit in u32 (its parse and checked
scaling panic otherwise). -/
def parseFracChecked (evPanic : Bool) (base : Nat) (ev : Int) :
    List Char × List Char → RustOutcome Unit MoveData
  | (fs, rest) =>
    match rest with
    | [] => RustOutcome.err ()
    | c :: _ =>
      if c = 's' ∧ 1 ≤ fs.length ∧ fs.length ≤ 3 then
        if evPanic ∨ 2 ^ 32 ≤ base + 10 ^ (3 - fs.length) * digitsToNat fs then
          RustOutcome.panicked
        else RustOutcome.ok ⟨ev, base + 10 ^ (3 - fs.length) * digitsToNat fs⟩
      else RustOutcome.err ()

/-- Time field with panic tracking after the greedy seconds digits: the u32
bound covers both the parse::<u32> unwrap of the seconds capture and the
checked multiplication by 1000. -/
def parseTime2Checked (evPanic : Bool) (ev : Int) :
    List Char × List Char → RustOutcome Unit MoveData
  | (ds, rest) =>
    if ds = [] then RustOutcome.err ()
    else
      match rest with
      | [] => RustOutcome.err ()
      | c :: rest2 =>
        if c = '.' then parseFracChecked evPanic (1000 * digitsToNat ds) ev (takeDigits rest2)
        else if c = 's' then
          if evPanic ∨ 2 ^ 32 ≤ 1000 * digitsToNat ds then RustOutcome.panicked
          else RustOutcome.ok ⟨ev, 1000 * digitsToNat ds⟩
        else RustOutcome.err ()

/-- Time field with panic tracking. -/
def parseTimeChecked (evPanic : Bool) (ev : Int) (cs : List Char) : RustOutcome Unit MoveData :=
  parseTime2Checked evPanic ev (takeDigits cs)

/-- Depth field with panic tracking (the depth digits are never parsed by
the program, so they cannot panic). -/
def parseDepthChecked (evPanic : Bool) (ev : Int) :
    List Char × List Char → RustOutcome Unit MoveData
  | (ds, rest) =>
    if ds = [] then RustOutcome.err ()
    else
      match rest with
      | [] => RustOutcome.err ()
      | w :: rest2 =>
        if w.isWhitespace then parseTimeChecked evPanic ev rest2 else RustOutcome.err ()

/-- Slash and depth field with panic tracking. -/
def parseAfterEvalChecked (evPanic : Bool) (ev : Int) (cs : List Char) : RustOutcome Unit MoveData :=
  match cs with
  | [] => RustOutcome.err ()
  | c :: rest =>
    if c = '/' then parseDepthChecked evPanic ev (takeDigits rest) else RustOutcome.err ()

/-- Mate evaluation with panic tracking: get_eval never parses the mate
digits (the magnitude is the constant 10000), so no eval panic is pending. -/
def parseMateChecked (sgn : Int) : List Char × List Char → RustOutcome Unit MoveData
  | (ds, rest) =>
    if ds = [] then RustOutcome.err ()
    else parseAfterEvalChecked false (sgn * 10000) rest

/-- Numeric evaluation with panic tracking: get_eval's parse::<i32> unwrap
of the integer capture and the checked 100*value+fraction scaling panic
exactly when the magnitude reaches 2^31; the panic is recorded and fires
only if the whole regex match succeeds, since get_eval runs after the
match. -/
def parseEvalNumChecked (sgn : Int) : List Char × List Char → RustOutcome Unit MoveData
  | (ds, rest) =>
    if ds = [] then RustOutcome.err ()
    else
      match rest with
      | c :: d1 :: d2 :: rest2 =>
        if c = '.' ∧ d1.isDigit ∧ d2.isDigit then
          parseAfterEvalChecked
            (decide (2 ^ 31 ≤ 100 * digitsToNat ds + digitsToNat [d1, d2]))
            (sgn * Int.ofNat (100 * digitsToNat ds + digitsToNat [d1, d2]))
            rest2
        else RustOutcome.err ()
      | _ => RustOutcome.err ()

/-- Evaluation after the optional sign, with panic tracking. -/
def parseAfterSignChecked (sgn : Int) (cs : List Char) : RustOutcome Unit MoveData :=
  match cs with
  | [] => RustOutcome.err ()
  | c :: rest =>
    if c = 'M' then parseMateChecked sgn (takeDigits rest)
    else parseEvalNumChecked sgn (takeDigits (c :: rest))

/-- The scanner of CommentParser::parse including the panic behaviour of
get_eval and get_time: err on a failed match like the Err(()) of the source,
panicked when the match succeeds but a numeric conversion leaves its machine
range, ok with the documented value otherwise. -/
def parseCommentChecked (cs : List Char) : RustOutcome Unit MoveData :=
  match cs with
  | [] => RustOutcome.err ()
  | c :: rest =>
    if c = '-' then parseAfterSignChecked (-1) rest
    else if c = '+' then parseAfterSignChecked 1 rest
    else parseAfterSignChecked 1 (c :: rest)

/-- CommentParser::parse with the panic behaviour of its numeric
conversions, on a whole string. -/
def CommentParser.parseChecked (s : String) : RustOutcome Unit MoveData :=
  parseCommentChecked s.data

/-- In-range condition of the evaluation token: the scaled magnitude that
get_eval computes fits in i32 (always true for a mate marker, whose digits
are never parsed). -/
def EvalTok.inRange : EvalTok → Prop
  | EvalTok.mate _ => True
  | EvalTok.num ds d1 d2 => 100 * digitsToNat ds + digitsToNat [d1, d2] < 2 ^ 31

instance : DecidablePred EvalTok.inRange := fun t => by
  cases t <;> simp only [EvalTok.inRange] <;> infer_instance

/-- In-range condition of a derivation's evaluation. -/
def Annot.evalInRange (a : Annot) : Prop := a.ev.inRange

instance : DecidablePred Annot.evalInRange := fun a => by
  simp only [Annot.evalInRange]
  infer_instance

/-- In-range condition of a derivation's time: the milliseconds value that
get_time computes fits in u32. -/
def Annot.timeInRange (a : Annot) : Prop :=
  1000 * digitsToNat a.secs + fracVal a.frac < 2 ^ 32

instance : DecidablePred Annot.timeInRange := fun a => by
  simp only [Annot.timeInRange]
  infer_instance

theorem digit_ne_of (c d : Char) (h : c.isDigit = true) (hd : d.isDigit = false) : c ≠ d := by
  intro e
  subst e
  rw [h] at hd
  cases hd

theorem ws_not_digit (c : Char) (h : c.isWhitespace = true) : c.isDigit = false := by
  simp only [Char.isWhitespace, Bool.or_eq_true, decide_eq_true_eq] at h
  rcases h with ((h | h) | h) | h <;> subst h <;> decide

theorem takeDigits_append (ds rest : List Char)
    (hds : ∀ c ∈ ds, c.isDigit) (hr : ∀ d t, rest = d :: t → d.isDigit = false) :
    takeDigits (ds ++ rest) = (ds, rest) := by
  induction ds with
  | nil =>
    cases rest with
    | nil => rfl
    | cons d t => simp [takeDigits, hr d t rfl]
  | cons c cs ih =>
    have hc : c.isDigit := hds c (by simp)
    have ihh := ih (fun x hx => hds x (by simp [hx]))
    simp [takeDigits, hc, ihh]

theorem takeDigits_spec (cs : List Char) :
    (takeDigits cs).1 ++ (takeDigits cs).2 = cs ∧
    (∀ c ∈ (takeDigits cs).1, c.isDigit) ∧
    (∀ d t, (takeDigits cs).2 = d :: t → d.isDigit = false) := by
  induction cs with
  | nil => simp [takeDigits]
  | cons c cs ih =>
    by_cases hc : c.isDigit
    · simp only [takeDigits, if_pos hc]
      refine ⟨by simp [ih.1], ?_, ih.2.2⟩
      intro x hx
      rcases List.mem_cons.mp hx with h | h
      · exact h ▸ hc
      · exact ih.2.1 x h
    · simp only [takeDigits, if_neg hc]
      refine ⟨rfl, by simp, ?_⟩
      intro d t he
      cases he
      simpa using hc

theorem parseTime_complete (ev : Int) (secs : List Char) (frac : Option (List Char)) (tail : List Char)
    (h1 : secs ≠ []) (h2 : ∀ c ∈ secs, c.isDigit) (h3 : fracWf frac) :
    parseTime ev (secs ++ (fracChars frac ++ 's' :: tail)) =
      some ⟨ev, 1000 * digitsToNat secs + fracVal frac⟩ := by
  have hhead : ∀ d t, fracChars frac ++ 's' :: tail = d :: t → d.isDigit = false := by
    intro d t he
    cases frac with
    | none =>
      simp only [fracChars, List.nil_append] at he
      injection he with e1 _
      subst e1
      decide
    | some fs =>
      simp only [fracChars, List.cons_append] at he
      injection he with e1 _
      subst e1
      decide
  rw [parseTime, takeDigits_append secs _ h2 hhead]
  cases frac with
  | none =>
    simp [parseTime2, h1, fracChars, fracVal]
  | some fs =>
    obtain ⟨⟨hl1, hl3⟩, hfd⟩ := h3
    have hsd : takeDigits (fs ++ 's' :: tail) = (fs, 's' :: tail) := by
      refine takeDigits_append fs _ hfd ?_
      intro d t he
      injection he with e1 _
      subst e1
      decide
    simp [parseTime2, h1, parseFrac, hsd, hl1, hl3, fracChars, fracVal]

theorem parseAfterEval_complete (ev : Int) (depth : List Char) (ws : Char) (rest : List Char)
    (h1 : depth ≠ []) (h2 : ∀ c ∈ depth, c.isDigit) (h3 : ws.isWhitespace) :
    parseAfterEval ev ('/' :: (depth ++ ws :: rest)) = parseTime ev rest := by
  have htd : takeDigits (depth ++ ws :: rest) = (depth, ws :: rest) := by
    refine takeDigits_append depth _ h2 ?_
    intro d t he
    injection he with e1 _
    subst e1
    exact ws_not_digit ws h3
  simp [parseAfterEval, htd, parseDepth, h1, h3]

theorem parseAfterSign_complete (sgn : Int) (t : EvalTok) (rest : List Char) (h : t.wf) :
    parseAfterSign sgn (t.chars ++ '/' :: rest) = parseAfterEval (sgn * t.val) ('/' :: rest) := by
  cases t with
  | mate ds =>
    obtain ⟨hne, hd⟩ := h
    have htd : takeDigits (ds ++ '/' :: rest) = (ds, '/' :: rest) := by
      refine takeDigits_append ds _ hd ?_
      intro d t he
      injection he with e1 _
      subst e1
      decide
    simp [EvalTok.chars, parseAfterSign, htd, parseMate, hne, EvalTok.val]
  | num ds d1 d2 =>
    obtain ⟨⟨hne, hd⟩, hx1, hx2⟩ := h
    obtain ⟨e, ds', rfl⟩ := List.exists_cons_of_ne_nil hne
    have he : e.isDigit := hd e (by simp)
    have heM : ¬(e = 'M') := digit_ne_of e 'M' he (by decide)
    have htd : takeDigits ((e :: ds') ++ ('.' :: d1 :: d2 :: '/' :: rest)) =
        (e :: ds', '.' :: d1 :: d2 :: '/' :: rest) := by
      refine takeDigits_append _ _ hd ?_
      intro d t he2
      injection he2 with e1 _
      subst e1
      decide
    simp only [List.cons_append] at htd
    simp [EvalTok.chars, parseAfterSign, heM, parseEvalNum, htd, hx1, hx2, EvalTok.val]

theorem parseComment_minus (rest : List Char) :
    parseComment ('-' :: rest) = parseAfterSign (-1) rest := by
  simp [parseComment]

theorem parseComment_plus (rest : List Char) :
    parseComment ('+' :: rest) = parseAfterSign 1 rest := by
  simp only [parseComment]
  rw [if_neg (show ¬('+' = '-') by decide)]
  simp

theorem parseComment_cons (c : Char) (rest : List Char) (h1 : ¬(c = '-')) (h2 : ¬(c = '+')) :
    parseComment (c :: rest) = parseAfterSign 1 (c :: rest) := by
  simp only [parseComment]
  rw [if_neg h1, if_neg h2]

theorem parseComment_complete (a : Annot) (tail : List Char) (h : a.wf) :
    parseComment (a.chars ++ tail) = some ⟨a.evalVal, a.timeVal⟩ := by
  obtain ⟨sg, tok, dep, w, sec, fr⟩ := a
  obtain ⟨hev, ⟨hd1, hd2⟩, hw, ⟨hs1, hs2⟩, hf⟩ := h
  have hchars : Annot.chars ⟨sg, tok, dep, w, sec, fr⟩ ++ tail =
      sg.chars ++ (tok.chars ++ '/' :: (dep ++ w :: (sec ++ (fracChars fr ++ 's' :: tail)))) := by
    simp [Annot.chars]
  rw [hchars]
  have key : ∀ sgn : Int,
      parseAfterSign sgn (tok.chars ++ '/' :: (dep ++ w :: (sec ++ (fracChars fr ++ 's' :: tail)))) =
        some ⟨sgn * tok.val, Annot.timeVal ⟨sg, tok, dep, w, sec, fr⟩⟩ := by
    intro sgn
    rw [parseAfterSign_complete sgn tok _ hev,
        parseAfterEval_complete _ _ _ _ hd1 hd2 hw,
        parseTime_complete _ _ _ _ hs1 hs2 hf]
    rfl
  cases sg with
  | minus =>
    simp only [SignTok.chars, List.cons_append, List.nil_append]
    rw [parseComment_minus, key (-1)]
    simp [Annot.evalVal, SignTok.val]
  | plus =>
    simp only [SignTok.chars, List.cons_append, List.nil_append]
    rw [parseComment_plus, key 1]
    simp [Annot.evalVal, SignTok.val]
  | absent =>
    simp only [SignTok.chars, List.nil_append]
    cases tok with
    | mate ds =>
      have key2 := key 1
      simp only [EvalTok.chars, List.cons_append] at key2 ⊢
      rw [parseComment_cons 'M' _ (by decide) (by decide), key2]
      simp [Annot.evalVal, SignTok.val]
    | num ds d1 d2 =>
      obtain ⟨⟨hne, hdig⟩, hx1, hx2⟩ := hev
      obtain ⟨e, ds', rfl⟩ := List.exists_cons_of_ne_nil hne
      have he : e.isDigit := hdig e (by simp)
      have key2 := key 1
      simp only [EvalTok.chars, List.cons_append, List.append_assoc, List.nil_append] at key2 ⊢
      rw [parseComment_cons e _ (digit_ne_of e '-' he (by decide)) (digit_ne_of e '+' he (by decide)),
          key2]
      simp [Annot.evalVal, SignTok.val]

theorem parseTimeChecked_complete (ev : Int) (secs : List Char) (frac : Option (List Char))
    (tail : List Char) (h1 : secs ≠ []) (h2 : ∀ c ∈ secs, c.isDigit) (h3 : fracWf frac)
    (hr : 1000 * digitsToNat secs + fracVal frac < 2 ^ 32) :
    parseTimeChecked false ev (secs ++ (fracChars frac ++ 's' :: tail)) =
      RustOutcome.ok ⟨ev, 1000 * digitsToNat secs + fracVal frac⟩ := by
  have hhead : ∀ d t, fracChars frac ++ 's' :: tail = d :: t → d.isDigit = false := by
    intro d t he
    cases frac with
    | none =>
      simp only [fracChars, List.nil_append] at he
      injection he with e1 _
      subst e1
      decide
    | some fs =>
      simp only [fracChars, List.cons_append] at he
      injection he with e1 _
      subst e1
      decide
  rw [parseTimeChecked, takeDigits_append secs _ h2 hhead]
  cases frac with
  | none =>
    simp only [fracVal] at hr ⊢
    have hnp : ¬(2 ^ 32 ≤ 1000 * digitsToNat secs) := by omega
    simp [parseTime2Checked, h1, fracChars, hnp]
    omega
  | some fs =>
    obtain ⟨⟨hl1, hl3⟩, hfd⟩ := h3
    have hsd : takeDigits (fs ++ 's' :: tail) = (fs, 's' :: tail) := by
      refine takeDigits_append fs _ hfd ?_
      intro d t he
      injection he with e1 _
      subst e1
      decide
    simp only [fracVal] at hr ⊢
    have hnp : ¬(2 ^ 32 ≤ 1000 * digitsToNat secs + 10 ^ (3 - fs.length) * digitsToNat fs) := by
      omega
    simp [parseTime2Checked, h1, parseFracChecked, hsd, hl1, hl3, fracChars, hnp]
    omega

theorem parseAfterEvalChecked_complete (b : Bool) (ev : Int) (depth : List Char) (ws : Char)
    (rest : List Char) (h1 : depth ≠ []) (h2 : ∀ c ∈ depth, c.isDigit) (h3 : ws.isWhitespace) :
    parseAfterEvalChecked b ev ('/' :: (depth ++ ws :: rest)) = parseTimeChecked b ev rest := by
  have htd : takeDigits (depth ++ ws :: rest) = (depth, ws :: rest) := by
    refine takeDigits_append depth _ h2 ?_
    intro d t he
    injection he with e1 _
    subst e1
    exact ws_not_digit ws h3
  simp [parseAfterEvalChecked, htd, parseDepthChecked, h1, h3]

theorem parseAfterSignChecked_complete (sgn : Int) (t : EvalTok) (rest : List Char)
    (h : t.wf) (hr : t.inRange) :
    parseAfterSignChecked sgn (t.chars ++ '/' :: rest) =
      parseAfterEvalChecked false (sgn * t.val) ('/' :: rest) := by
  cases t with
  | mate ds =>
    obtain ⟨hne, hd⟩ := h
    have htd : takeDigits (ds ++ '/' :: rest) = (ds, '/' :: rest) := by
      refine takeDigits_append ds _ hd ?_
      intro d t he
      injection he with e1 _
      subst e1
      decide
    simp [EvalTok.chars, parseAfterSignChecked, htd, parseMateChecked, hne, EvalTok.val]
  | num ds d1 d2 =>
    obtain ⟨⟨hne, hd⟩, hx1, hx2⟩ := h
    obtain ⟨e, ds', rfl⟩ := List.exists_cons_of_ne_nil hne
    have he : e.isDigit := hd e (by simp)
    have heM : ¬(e = 'M') := digit_ne_of e 'M' he (by decide)
    have htd : takeDigits ((e :: ds') ++ ('.' :: d1 :: d2 :: '/' :: rest)) =
        (e :: ds', '.' :: d1 :: d2 :: '/' :: rest) := by
      refine takeDigits_append _ _ hd ?_
      intro d t he2
      injection he2 with e1 _
      subst e1
      decide
    simp only [List.cons_append] at htd
    have hdec : decide (2147483648 ≤ 100 * digitsToNat (e :: ds') + digitsToNat [d1, d2]) = false := by
      refine decide_eq_false ?_
      simp only [EvalTok.inRange] at hr
      omega
    simp [EvalTok.chars, parseAfterSignChecked, heM, parseEvalNumChecked, htd, hx1, hx2,
      EvalTok.val, hdec]

theorem parseCommentChecked_minus (rest : List Char) :
    parseCommentChecked ('-' :: rest) = parseAfterSignChecked (-1) rest := by
  simp [parseCommentChecked]

theorem parseCommentChecked_plus (rest : List Char) :
    parseCommentChecked ('+' :: rest) = parseAfterSignChecked 1 rest := by
  simp only [parseCommentChecked]
  rw [if_neg (show ¬('+' = '-') by decide)]
  simp

theorem parseCommentChecked_cons (c : Char) (rest : List Char) (h1 : ¬(c = '-'))
    (h2 : ¬(c = '+')) :
    parseCommentChecked (c :: rest) = parseAfterSignChecked 1 (c :: rest) := by
  simp only [parseCommentChecked]
  rw [if_neg h1, if_neg h2]

theorem parseCommentChecked_complete (a : Annot) (tail : List Char) (h : a.wf)
    (he : a.evalInRange) (ht : a.timeInRange) :
    parseCommentChecked (a.chars ++ tail) = RustOutcome.ok ⟨a.evalVal, a.timeVal⟩ := by
  obtain ⟨sg, tok, dep, w, sec, fr⟩ := a
  obtain ⟨hev, ⟨hd1, hd2⟩, hw, ⟨hs1, hs2⟩, hf⟩ := h
  simp only [Annot.evalInRange] at he
  simp only [Annot.timeInRange] at ht
  have hchars : Annot.chars ⟨sg, tok, dep, w, sec, fr⟩ ++ tail =
      sg.chars ++ (tok.chars ++ '/' :: (dep ++ w :: (sec ++ (fracChars fr ++ 's' :: tail)))) := by
    simp [Annot.chars]
  rw [hchars]
  have key : ∀ sgn : Int,
      parseAfterSignChecked sgn
          (tok.chars ++ '/' :: (dep ++ w :: (sec ++ (fracChars fr ++ 's' :: tail)))) =
        RustOutcome.ok ⟨sgn * tok.val, Annot.timeVal ⟨sg, tok, dep, w, sec, fr⟩⟩ := by
    intro sgn
    rw [parseAfterSignChecked_complete sgn tok _ hev he,
        parseAfterEvalChecked_complete _ _ _ _ _ hd1 hd2 hw,
        parseTimeChecked_complete _ _ _ _ hs1 hs2 hf ht]
    rfl
  cases sg with
  | minus =>
    simp only [SignTok.chars, List.cons_append, List.nil_append]
    rw [parseCommentChecked_minus, key (-1)]
    simp [Annot.evalVal, SignTok.val]
  | plus =>
    simp only [SignTok.chars, List.cons_append, List.nil_append]
    rw [parseCommentChecked_plus, key 1]
    simp [Annot.evalVal, SignTok.val]
  | absent =>
    simp only [SignTok.chars, List.nil_append]
    cases tok with
    | mate ds =>
      have key2 := key 1
      simp only [EvalTok.chars, List.cons_append] at key2 ⊢
      rw [parseCommentChecked_cons 'M' _ (by decide) (by decide), key2]
      simp [Annot.evalVal, SignTok.val]
    | num ds d1 d2 =>
      obtain ⟨⟨hne, hdig⟩, hx1, hx2⟩ := hev
      obtain ⟨e, ds', rfl⟩ := List.exists_cons_of_ne_nil hne
      have hed : e.isDigit := hdig e (by simp)
      have key2 := key 1
      simp only [EvalTok.chars, List.cons_append, List.append_assoc, List.nil_append] at key2 ⊢
      rw [parseCommentChecked_cons e _ (digit_ne_of e '-' hed (by decide))
          (digit_ne_of e '+' hed (by decide)), key2]
      simp [Annot.evalVal, SignTok.val]

theorem takeDigits_eq (cs ds rest : List Char) (h : takeDigits cs = (ds, rest)) :
    ds ++ rest = cs ∧ (∀ c ∈ ds, c.isDigit) ∧ (∀ d t, rest = d :: t → d.isDigit = false) := by
  have hs := takeDigits_spec cs
  rw [h] at hs
  simpa using hs

theorem parseTime_sound (ev : Int) (cs : List Char) (md : MoveData)
    (h : parseTime ev cs = some md) :
    ∃ secs frac tail, (secs ≠ [] ∧ ∀ c ∈ secs, c.isDigit) ∧ fracWf frac ∧
      cs = secs ++ (fracChars frac ++ 's' :: tail) := by
  rw [parseTime] at h
  rcases htd : takeDigits cs with ⟨ds, rest⟩
  obtain ⟨hsplit, hdig, _⟩ := takeDigits_eq cs ds rest htd
  rw [htd] at h
  cases rest with
  | nil => simp [parseTime2] at h
  | cons c rest2 =>
    simp only [parseTime2] at h
    by_cases hds : ds = []
    · rw [if_pos hds] at h; simp at h
    rw [if_neg hds] at h
    by_cases hc : c = '.'
    · subst hc
      rw [if_pos rfl] at h
      rcases htd2 : takeDigits rest2 with ⟨fs, rest3⟩
      obtain ⟨hsplit2, hdig2, _⟩ := takeDigits_eq rest2 fs rest3 htd2
      rw [htd2] at h
      cases rest3 with
      | nil => simp [parseFrac] at h
      | cons c2 t =>
        simp only [parseFrac] at h
        by_cases hcond : c2 = 's' ∧ 1 ≤ fs.length ∧ fs.length ≤ 3
        · obtain ⟨hc2, hb1, hb2⟩ := hcond
          subst hc2
          refine ⟨ds, some fs, t, ⟨hds, hdig⟩, ⟨⟨hb1, hb2⟩, hdig2⟩, ?_⟩
          rw [← hsplit, ← hsplit2]
          simp [fracChars]
        · rw [if_neg hcond] at h; simp at h
    · rw [if_neg hc] at h
      by_cases hc2 : c = 's'
      · subst hc2
        refine ⟨ds, none, rest2, ⟨hds, hdig⟩, trivial, ?_⟩
        rw [← hsplit]
        simp [fracChars]
      · rw [if_neg hc2] at h; simp at h

theorem parseAfterEval_sound (ev : Int) (cs : List Char) (md : MoveData)
    (h : parseAfterEval ev cs = some md) :
    ∃ dep w rest, (dep ≠ [] ∧ ∀ c ∈ dep, c.isDigit) ∧ w.isWhitespace ∧
      cs = '/' :: (dep ++ w :: rest) ∧ parseTime ev rest = some md := by
  cases cs with
  | nil => simp [parseAfterEval] at h
  | cons c rest0 =>
    simp only [parseAfterEval] at h
    by_cases hc : c = '/'
    · subst hc
      rw [if_pos rfl] at h
      rcases htd : takeDigits rest0 with ⟨ds, rest⟩
      obtain ⟨hsplit, hdig, _⟩ := takeDigits_eq rest0 ds rest htd
      rw [htd] at h
      cases rest with
      | nil => simp [parseDepth] at h
      | cons w rest2 =>
        simp only [parseDepth] at h
        by_cases hds : ds = []
        · rw [if_pos hds] at h; simp at h
        rw [if_neg hds] at h
        by_cases hw : w.isWhitespace
        · rw [if_pos hw] at h
          exact ⟨ds, w, rest2, ⟨hds, hdig⟩, hw, by rw [← hsplit], h⟩
        · rw [if_neg hw] at h; simp at h
    · rw [if_neg hc] at h; simp at h

theorem parseAfterSign_sound (sgn : Int) (cs : List Char) (md : MoveData)
    (h : parseAfterSign sgn cs = some md) :
    ∃ t rest, EvalTok.wf t ∧ cs = t.chars ++ rest ∧
      parseAfterEval (sgn * t.val) rest = some md := by
  cases cs with
  | nil => simp [parseAfterSign] at h
  | cons c rest0 =>
    simp only [parseAfterSign] at h
    by_cases hc : c = 'M'
    · subst hc
      rw [if_pos rfl] at h
      rcases htd : takeDigits rest0 with ⟨ds, rest⟩
      obtain ⟨hsplit, hdig, _⟩ := takeDigits_eq rest0 ds rest htd
      rw [htd] at h
      simp only [parseMate] at h
      by_cases hds : ds = []
      · rw [if_pos hds] at h; simp at h
      rw [if_neg hds] at h
      exact ⟨EvalTok.mate ds, rest, ⟨hds, hdig⟩,
        by simp [EvalTok.chars, ← hsplit], by simpa [EvalTok.val] using h⟩
    · rw [if_neg hc] at h
      rcases htd : takeDigits (c :: rest0) with ⟨ds, rest⟩
      obtain ⟨hsplit, hdig, _⟩ := takeDigits_eq _ ds rest htd
      rw [htd] at h
      cases rest with
      | nil => simp [parseEvalNum] at h
      | cons c0 rest1 =>
        cases rest1 with
        | nil => simp [parseEvalNum] at h
        | cons d1 rest2 =>
          cases rest2 with
          | nil => simp [parseEvalNum] at h
          | cons d2 rest3 =>
            simp only [parseEvalNum] at h
            by_cases hds : ds = []
            · rw [if_pos hds] at h; simp at h
            rw [if_neg hds] at h
            by_cases hcond : c0 = '.' ∧ d1.isDigit ∧ d2.isDigit
            · obtain ⟨hdot, hx1, hx2⟩ := hcond
              subst hdot
              rw [if_pos ⟨rfl, hx1, hx2⟩] at h
              exact ⟨EvalTok.num ds d1 d2, rest3, ⟨⟨hds, hdig⟩, hx1, hx2⟩,
                by simp [EvalTok.chars, ← hsplit], by simpa [EvalTok.val] using h⟩
            · rw [if_neg hcond] at h; simp at h

theorem parseComment_sound (cs : List Char) (md : MoveData)
    (h : parseComment cs = some md) :
    ∃ a tail, Annot.wf a ∧ cs = Annot.chars a ++ tail := by
  cases cs with
  | nil => simp [parseComment] at h
  | cons c rest0 =>
    simp only [parseComment] at h
    by_cases hminus : c = '-'
    · subst hminus
      rw [if_pos rfl] at h
      obtain ⟨t, rest, hwf, hshape, hae⟩ := parseAfterSign_sound _ _ _ h
      obtain ⟨dep, w, rest2, hdep, hw, hshape2, hpt⟩ := parseAfterEval_sound _ _ _ hae
      obtain ⟨secs, frac, tail, hsecs, hfrac, hshape3⟩ := parseTime_sound _ _ _ hpt
      refine ⟨⟨SignTok.minus, t, dep, w, secs, frac⟩, tail, ⟨hwf, hdep, hw, hsecs, hfrac⟩, ?_⟩
      simp [Annot.chars, SignTok.chars, hshape, hshape2, hshape3]
    rw [if_neg hminus] at h
    by_cases hplus : c = '+'
    · subst hplus
      rw [if_pos rfl] at h
      obtain ⟨t, rest, hwf, hshape, hae⟩ := parseAfterSign_sound _ _ _ h
      obtain ⟨dep, w, rest2, hdep, hw, hshape2, hpt⟩ := parseAfterEval_sound _ _ _ hae
      obtain ⟨secs, frac, tail, hsecs, hfrac, hshape3⟩ := parseTime_sound _ _ _ hpt
      refine ⟨⟨SignTok.plus, t, dep, w, secs, frac⟩, tail, ⟨hwf, hdep, hw, hsecs, hfrac⟩, ?_⟩
      simp [Annot.chars, SignTok.chars, hshape, hshape2, hshape3]
    rw [if_neg hplus] at h
    obtain ⟨t, rest, hwf, hshape, hae⟩ := parseAfterSign_sound _ _ _ h
    obtain ⟨dep, w, rest2, hdep, hw, hshape2, hpt⟩ := parseAfterEval_sound _ _ _ hae
    obtain ⟨secs, frac, tail, hsecs, hfrac, hshape3⟩ := parseTime_sound _ _ _ hpt
    refine ⟨⟨SignTok.absent, t, dep, w, secs, frac⟩, tail, ⟨hwf, hdep, hw, hsecs, hfrac⟩, ?_⟩
    simp [Annot.chars, SignTok.chars, hshape, hshape2, hshape3]

theorem adjStep_time (rr : ResignRule) (dr : DrawRule) (p : Nat) (m : MoveData) (s : AdjState) :
    (adjStep rr dr p m s).total_time = s.total_time + m.time := by
  unfold adjStep
  dsimp only
  split_ifs <;> rfl

theorem adjLoop_time (rr : ResignRule) (dr : DrawRule) (ms : List MoveData) :
    ∀ (p : Nat) (s : AdjState),
      (adjLoop rr dr p ms s).total_time = s.total_time + (ms.map MoveData.time).sum := by
  induction ms with
  | nil => intro p s; simp [adjLoop]
  | cons m ms ih =>
    intro p s
    simp only [adjLoop, List.map_cons, List.sum_cons]
    rw [ih, adjStep_time]
    omega

theorem adjStep_latched (rr : ResignRule) (dr : DrawRule) (p : Nat) (m : MoveData) (s : AdjState)
    (h : s.adjudicated_outcome ≠ none) :
    adjStep rr dr p m s = { s with total_time := s.total_time + m.time } := by
  unfold adjStep
  dsimp only
  rw [if_neg h]

theorem adjLoop_latched (rr : ResignRule) (dr : DrawRule) (ms : List MoveData) :
    ∀ (p : Nat) (s : AdjState), s.adjudicated_outcome ≠ none →
      (adjLoop rr dr p ms s).adjudicated_outcome = s.adjudicated_outcome ∧
      (adjLoop rr dr p ms s).rule_applied = s.rule_applied := by
  induction ms with
  | nil => intro p s _; exact ⟨rfl, rfl⟩
  | cons m ms ih =>
    intro p s h
    simp only [adjLoop]
    rw [adjStep_latched rr dr p m s h]
    exact ih (p + 1) { s with total_time := s.total_time + m.time } h

theorem adjStep_inv (rr : ResignRule) (dr : DrawRule) (p : Nat) (m : MoveData) (s : AdjState)
    (h1 : s.adjudicated_outcome = none → s.rule_applied = none)
    (h2 : ∀ st, s.adjudicated_outcome = some st →
      s.rule_applied ≠ none ∧ st.time ≤ s.total_time ∧ st.length ≤ p) :
    ((adjStep rr dr p m s).adjudicated_outcome = none → (adjStep rr dr p m s).rule_applied = none) ∧
    (∀ st, (adjStep rr dr p m s).adjudicated_outcome = some st →
      (adjStep rr dr p m s).rule_applied ≠ none ∧ st.time ≤ (adjStep rr dr p m s).total_time ∧
      st.length ≤ p + 1) := by
  cases hn : s.adjudicated_outcome with
  | some st0 =>
    rw [adjStep_latched rr dr p m s (by rw [hn]; simp)]
    constructor
    · intro he
      simp [hn] at he
    · intro st hst
      simp only [hn] at hst
      rw [Option.some.injEq] at hst
      subst hst
      obtain ⟨ha, hb, hc⟩ := h2 st0 hn
      exact ⟨by simpa using ha, by simp; omega, by omega⟩
  | none =>
    have hr : s.rule_applied = none := h1 hn
    unfold adjStep
    dsimp only
    rw [if_pos hn]
    by_cases hfire : (p + 1) / 2 ≥ dr.from_move ∧
        (if |m.eval| ≤ dr.eval then s.draw_count + 1 else 0) ≥ 2 * dr.count
    · rw [if_pos hfire]
      constructor
      · intro he
        simp at he
      · intro st hst
        simp only at hst
        rw [Option.some.injEq] at hst
        subst hst
        exact ⟨by simp, by simp, by simp⟩
    · rw [if_neg hfire]
      by_cases hrc : (if m.eval ≤ -rr.eval then (if p % 2 = 0 then s.resign0 else s.resign1) + 1
          else 0) = rr.count
      · rw [if_pos hrc, if_pos hrc]
        constructor
        · intro he
          simp at he
        · intro st hst
          simp only at hst
          rw [Option.some.injEq] at hst
          subst hst
          exact ⟨by simp, by simp, by simp⟩
      · rw [if_neg hrc, if_neg hrc]
        constructor
        · intro _
          simpa using hr
        · intro st hst
          simp only [hn] at hst
          cases hst

theorem adjLoop_inv (rr : ResignRule) (dr : DrawRule) (ms : List MoveData) :
    ∀ (p : Nat) (s : AdjState),
      (s.adjudicated_outcome = none → s.rule_applied = none) →
      (∀ st, s.adjudicated_outcome = some st →
        s.rule_applied ≠ none ∧ st.time ≤ s.total_time ∧ st.length ≤ p) →
      ((adjLoop rr dr p ms s).adjudicated_outcome = none →
        (adjLoop rr dr p ms s).rule_applied = none) ∧
      (∀ st, (adjLoop rr dr p ms s).adjudicated_outcome = some st →
        (adjLoop rr dr p ms s).rule_applied ≠ none ∧
        st.time ≤ (adjLoop rr dr p ms s).total_time ∧ st.length ≤ p + ms.length) := by
  induction ms with
  | nil =>
    intro p s h1 h2
    simpa [adjLoop] using ⟨h1, h2⟩
  | cons m ms ih =>
    intro p s h1 h2
    simp only [adjLoop, List.length_cons]
    have step := adjStep_inv rr dr p m s h1 h2
    have hrec := ih (p + 1) (adjStep rr dr p m s) step.1 step.2
    refine ⟨hrec.1, fun st hst => ?_⟩
    obtain ⟨ha, hb, hc⟩ := hrec.2 st hst
    exact ⟨ha, hb, by omega⟩

theorem adjudicate_props (g : GameData) (rr : ResignRule) (dr : DrawRule) :
    (adjudicate_game g rr dr).actual.time = (g.move_data.map MoveData.time).sum ∧
    (adjudicate_game g rr dr).actual.length = g.move_data.length ∧
    (adjudicate_game g rr dr).actual.score10 = g.score10 ∧
    (adjudicate_game g rr dr).adjudicated.time ≤ (adjudicate_game g rr dr).actual.time ∧
    (adjudicate_game g rr dr).adjudicated.length ≤ (adjudicate_game g rr dr).actual.length ∧
    ((adjudicate_game g rr dr).rule_applied = none →
      (adjudicate_game g rr dr).adjudicated = (adjudicate_game g rr dr).actual) := by
  have hinv := adjLoop_inv rr dr g.move_data 0 ⟨0, 0, 0, 0, none, none⟩
    (fun _ => rfl) (fun st hst => by simp at hst)
  have htime := adjLoop_time rr dr g.move_data 0 ⟨0, 0, 0, 0, none, none⟩
  simp only [adjudicate_game]
  cases hfo : (adjLoop rr dr 0 g.move_data ⟨0, 0, 0, 0, none, none⟩).adjudicated_outcome with
  | none =>
    simp only [hfo, Option.getD_none]
    refine ⟨by simpa using htime, by simp, by simp, by simp, by simp, by simp⟩
  | some st =>
    obtain ⟨ha, hb, hc⟩ := hinv.2 st hfo
    simp only [hfo, Option.getD_some]
    refine ⟨by simpa using htime, by simp, by simp, by simpa using hb, by simpa using hc,
      fun hrule => absurd hrule ha⟩

theorem time_saved_eq (o : AdjudicationOutcome) :
    o.time_saved = if o.actual.score10 = o.adjudicated.score10 then
      (o.actual.time : Int) - (o.adjudicated.time : Int) else 0 := by
  unfold AdjudicationOutcome.time_saved AdjudicationOutcome.correctly_adjudicated
  by_cases h : o.actual.score10 = o.adjudicated.score10 <;> simp [h]

theorem time_saved_nonneg (g : GameData) (rr : ResignRule) (dr : DrawRule) :
    0 ≤ (adjudicate_game g rr dr).time_saved := by
  have h := (adjudicate_props g rr dr).2.2.2.1
  rw [time_saved_eq]
  split_ifs
  · omega
  · exact le_refl 0

theorem adjStep_sentinel (p : Nat) (m : MoveData) (s : AdjState) (hp : p ≤ 19997)
    (h1 : s.adjudicated_outcome = none) (h2 : s.rule_applied = none)
    (h3 : s.resign0 ≤ (p + 1) / 2) (h4 : s.resign1 ≤ p / 2) :
    (adjStep ⟨10000, 10000⟩ ⟨10000, 0, 10000⟩ p m s).adjudicated_outcome = none ∧
    (adjStep ⟨10000, 10000⟩ ⟨10000, 0, 10000⟩ p m s).rule_applied = none ∧
    (adjStep ⟨10000, 10000⟩ ⟨10000, 0, 10000⟩ p m s).resign0 ≤ (p + 2) / 2 ∧
    (adjStep ⟨10000, 10000⟩ ⟨10000, 0, 10000⟩ p m s).resign1 ≤ (p + 1) / 2 := by
  unfold adjStep
  dsimp only
  rw [if_pos h1]
  have hfire : ¬((p + 1) / 2 ≥ 10000 ∧
      (if |m.eval| ≤ (0 : Int) then s.draw_count + 1 else 0) ≥ 2 * 10000) := by
    rintro ⟨hA, _⟩
    omega
  rw [if_neg hfire]
  have hrc : ¬((if m.eval ≤ -(10000 : Int) then
      (if p % 2 = 0 then s.resign0 else s.resign1) + 1 else 0) = 10000) := by
    by_cases hq : m.eval ≤ -(10000 : Int) <;> by_cases hpar : p % 2 = 0 <;>
      simp [hq, hpar] <;> omega
  rw [if_neg hrc, if_neg hrc]
  refine ⟨by simpa using h1, by simpa using h2, ?_, ?_⟩ <;>
    by_cases hq : m.eval ≤ -(10000 : Int) <;> by_cases hpar : p % 2 = 0 <;>
      simp [hq, hpar] <;> omega

theorem adjLoop_sentinel (ms : List MoveData) :
    ∀ (p : Nat) (s : AdjState), p + ms.length ≤ 19998 →
      s.adjudicated_outcome = none → s.rule_applied = none →
      s.resign0 ≤ (p + 1) / 2 → s.resign1 ≤ p / 2 →
      (adjLoop ⟨10000, 10000⟩ ⟨10000, 0, 10000⟩ p ms s).adjudicated_outcome = none ∧
      (adjLoop ⟨10000, 10000⟩ ⟨10000, 0, 10000⟩ p ms s).rule_applied = none := by
  induction ms with
  | nil =>
    intro p s _ h1 h2 _ _
    exact ⟨h1, h2⟩
  | cons m ms ih =>
    intro p s hlen h1 h2 h3 h4
    simp only [List.length_cons] at hlen
    simp only [adjLoop]
    obtain ⟨k1, k2, k3, k4⟩ := adjStep_sentinel p m s (by omega) h1 h2 h3 h4
    exact ih (p + 1) _ (by omega) k1 k2 (by omega) (by omega)

theorem adjudicate_sentinel (g : GameData) (h : g.move_data.length < 19999) :
    (adjudicate_game g ⟨10000, 10000⟩ ⟨10000, 0, 10000⟩).rule_applied = none ∧
    (adjudicate_game g ⟨10000, 10000⟩ ⟨10000, 0, 10000⟩).adjudicated =
      (adjudicate_game g ⟨10000, 10000⟩ ⟨10000, 0, 10000⟩).actual := by
  obtain ⟨hA, hB⟩ := adjLoop_sentinel g.move_data 0 ⟨0, 0, 0, 0, none, none⟩
    (by omega) rfl rfl (by simp) (by simp)
  constructor
  · simpa [adjudicate_game] using hB
  · simp [adjudicate_game, hA]

theorem aggStep_resign_ts (rr : ResignRule) (dr : DrawRule) (st : RuleTestStats) (g : GameData) :
    (aggStep rr dr st g).resign_time_saved = st.resign_time_saved +
      (if (adjudicate_game g rr dr).rule_applied = some RuleType.Resign then
        (adjudicate_game g rr dr).time_saved else 0) := by
  rcases ho : (adjudicate_game g rr dr).rule_applied with _ | rt
  · simp [aggStep, ho]
  · cases rt <;> simp [aggStep, ho]

theorem aggStep_draw_ts (rr : ResignRule) (dr : DrawRule) (st : RuleTestStats) (g : GameData) :
    (aggStep rr dr st g).draw_time_saved = st.draw_time_saved +
      (if (adjudicate_game g rr dr).rule_applied = some RuleType.Draw then
        (adjudicate_game g rr dr).time_saved else 0) := by
  rcases ho : (adjudicate_game g rr dr).rule_applied with _ | rt
  · simp [aggStep, ho]
  · cases rt <;> simp [aggStep, ho]

theorem aggStep_resign_sq (rr : ResignRule) (dr : DrawRule) (st : RuleTestStats) (g : GameData) :
    (aggStep rr dr st g).resign_squared_error10 = st.resign_squared_error10 +
      (if (adjudicate_game g rr dr).rule_applied = some RuleType.Resign then
        (adjudicate_game g rr dr).squared_error10 else 0) := by
  rcases ho : (adjudicate_game g rr dr).rule_applied with _ | rt
  · simp [aggStep, ho]
  · cases rt <;> simp [aggStep, ho]

theorem aggStep_draw_sq (rr : ResignRule) (dr : DrawRule) (st : RuleTestStats) (g : GameData) :
    (aggStep rr dr st g).draw_squared_error10 = st.draw_squared_error10 +
      (if (adjudicate_game g rr dr).rule_applied = some RuleType.Draw then
        (adjudicate_game g rr dr).squared_error10 else 0) := by
  rcases ho : (adjudicate_game g rr dr).rule_applied with _ | rt
  · simp [aggStep, ho]
  · cases rt <;> simp [aggStep, ho]

theorem specTimeSaved_cons (o : AdjudicationOutcome) (os : List AdjudicationOutcome) (rt : RuleType) :
    specTimeSaved (o :: os) rt =
      (if o.rule_applied = some rt then o.time_saved else 0) + specTimeSaved os rt := by
  by_cases h : o.rule_applied = some rt <;>
    simp [specTimeSaved, categoryOutcomes, List.filter_cons, h]

theorem specSquaredError_cons (o : AdjudicationOutcome) (os : List AdjudicationOutcome) (rt : RuleType) :
    specSquaredError (o :: os) rt =
      (if o.rule_applied = some rt then o.squared_error10 else 0) + specSquaredError os rt := by
  by_cases h : o.rule_applied = some rt <;>
    simp [specSquaredError, categoryOutcomes, List.filter_cons, h]

theorem outcomesOf_cons (g : GameData) (gs : List GameData) (rr : ResignRule) (dr : DrawRule) :
    outcomesOf (g :: gs) rr dr = adjudicate_game g rr dr :: outcomesOf gs rr dr := by
  simp [outcomesOf]

theorem agg_foldl (rr : ResignRule) (dr : DrawRule) (games : List GameData) :
    ∀ st : RuleTestStats,
      (games.foldl (aggStep rr dr) st).resign_time_saved =
        st.resign_time_saved + specTimeSaved (outcomesOf games rr dr) RuleType.Resign ∧
      (games.foldl (aggStep rr dr) st).draw_time_saved =
        st.draw_time_saved + specTimeSaved (outcomesOf games rr dr) RuleType.Draw ∧
      (games.foldl (aggStep rr dr) st).resign_squared_error10 =
        st.resign_squared_error10 + specSquaredError (outcomesOf games rr dr) RuleType.Resign ∧
      (games.foldl (aggStep rr dr) st).draw_squared_error10 =
        st.draw_squared_error10 + specSquaredError (outcomesOf games rr dr) RuleType.Draw := by
  induction games with
  | nil =>
    intro st
    simp [outcomesOf, specTimeSaved, specSquaredError, categoryOutcomes]
  | cons g gs ih =>
    intro st
    simp only [List.foldl_cons]
    obtain ⟨i1, i2, i3, i4⟩ := ih (aggStep rr dr st g)
    rw [outcomesOf_cons]
    refine ⟨?_, ?_, ?_, ?_⟩
    · rw [i1, aggStep_resign_ts, specTimeSaved_cons]; ring
    · rw [i2, aggStep_draw_ts, specTimeSaved_cons]; ring
    · rw [i3, aggStep_resign_sq, specSquaredError_cons]; ring
    · rw [i4, aggStep_draw_sq, specSquaredError_cons]; ring

theorem mapGamesAux_all_ok (gs : List Game) :
    ∀ k : Nat, (∀ g ∈ gs, ∃ gd, map_single_game_data g = Except.ok gd) →
      ∃ out, mapGamesAux k gs = Except.ok out ∧
        gs.map map_single_game_data = out.map Except.ok := by
  induction gs with
  | nil =>
    intro k _
    exact ⟨[], rfl, rfl⟩
  | cons g gs ih =>
    intro k h
    obtain ⟨gd, hgd⟩ := h g (by simp)
    obtain ⟨out, hout, hmap⟩ := ih (k + 1) (fun g' hg' => h g' (by simp [hg']))
    refine ⟨gd :: out, ?_, ?_⟩
    · simp [mapGamesAux, hgd, hout, Except.map]
    · simp [hgd, hmap]

theorem mapGamesAux_first_err (l1 : List Game) :
    ∀ (k : Nat) (g : Game) (l2 : List Game) (e : GameError),
      (∀ g' ∈ l1, ∃ gd, map_single_game_data g' = Except.ok gd) →
      map_single_game_data g = Except.error e →
      mapGamesAux k (l1 ++ g :: l2) = Except.error ⟨k + l1.length + 1, e⟩ := by
  induction l1 with
  | nil =>
    intro k g l2 e _ h2
    simp [mapGamesAux, h2]
  | cons a l1 ih =>
    intro k g l2 e h1 h2
    obtain ⟨gd, hgd⟩ := h1 a (by simp)
    have hrec := ih (k + 1) g l2 e (fun g' hg' => h1 g' (by simp [hg'])) h2
    simp only [List.cons_append, mapGamesAux, hgd, List.append_eq]
    rw [hrec]
    simp only [Except.map, List.length_cons]
    have heq : k + 1 + l1.length + 1 = k + (l1.length + 1) + 1 := by omega
    rw [heq]

theorem mapMoves_missing (pre : List RawMove) :
    ∀ (k : Nat) (rest : List RawMove),
      (∀ m ∈ pre, ∃ s md, m.comment = some s ∧ CommentParser.parse s = some md) →
      mapMoves k (pre ++ ⟨none⟩ :: rest) =
        Except.error (GameError.MissingComment (k + pre.length)) := by
  induction pre with
  | nil =>
    intro k rest _
    simp [mapMoves]
  | cons m pre ih =>
    intro k rest h
    obtain ⟨s, md, hc, hp⟩ := h m (by simp)
    have hrec := ih (k + 1) rest (fun m' hm' => h m' (by simp [hm']))
    simp only [List.cons_append, mapMoves, hc, hp, List.append_eq]
    rw [hrec]
    simp only [Except.map, List.length_cons]
    have heq : k + 1 + pre.length = k + (pre.length + 1) := by omega
    rw [heq]

theorem mapMoves_bad (pre : List RawMove) :
    ∀ (k : Nat) (c : String) (rest : List RawMove),
      (∀ m ∈ pre, ∃ s md, m.comment = some s ∧ CommentParser.parse s = some md) →
      CommentParser.parse c = none →
      mapMoves k (pre ++ ⟨some c⟩ :: rest) =
        Except.error (GameError.BadComment (k + pre.length + 1)) := by
  induction pre with
  | nil =>
    intro k c rest _ hc
    simp [mapMoves, hc]
  | cons m pre ih =>
    intro k c rest h hc
    obtain ⟨s, md, hcm, hp⟩ := h m (by simp)
    have hrec := ih (k + 1) c rest (fun m' hm' => h m' (by simp [hm'])) hc
    simp only [List.cons_append, mapMoves, hcm, hp, List.append_eq]
    rw [hrec]
    simp only [Except.map, List.length_cons]
    have heq : k + 1 + pre.length + 1 = k + (pre.length + 1) + 1 := by omega
    rw [heq]

/-- C1: at each 0-indexed ply p, while no rule has fired, the draw check of
adjudicate_game increments the shared draw streak counter when the eval
magnitude is at most draw.eval and resets it to 0 otherwise; the draw rule
fires exactly when the full-move number (p+1)/2 has reached draw.from_move
and the updated counter has reached 2 times draw.count, producing the
adjudicated outcome with length p+1, the cumulative time so far and score10
5, rule_applied Draw, and skipping the resign check (the resignation
counters are left untouched); when the condition fails the draw rule does
not fire at this ply. -/
theorem claim_C1_draw_check (rr : ResignRule) (dr : DrawRule) (p : Nat) (m : MoveData)
    (s : AdjState) (h1 : s.adjudicated_outcome = none) (h2 : s.rule_applied = none) :
    (adjStep rr dr p m s).draw_count =
      (if |m.eval| ≤ dr.eval then s.draw_count + 1 else 0) ∧
    (((p + 1) / 2 ≥ dr.from_move ∧
        (if |m.eval| ≤ dr.eval then s.draw_count + 1 else 0) ≥ 2 * dr.count) →
      (adjStep rr dr p m s).rule_applied = some RuleType.Draw ∧
      (adjStep rr dr p m s).adjudicated_outcome = some ⟨p + 1, s.total_time + m.time, 5⟩ ∧
      (adjStep rr dr p m s).resign0 = s.resign0 ∧
      (adjStep rr dr p m s).resign1 = s.resign1) ∧
    (¬((p + 1) / 2 ≥ dr.from_move ∧
        (if |m.eval| ≤ dr.eval then s.draw_count + 1 else 0) ≥ 2 * dr.count) →
      (adjStep rr dr p m s).rule_applied ≠ some RuleType.Draw) := by
  unfold adjStep
  dsimp only
  rw [if_pos h1]
  by_cases hfire : (p + 1) / 2 ≥ dr.from_move ∧
      (if |m.eval| ≤ dr.eval then s.draw_count + 1 else 0) ≥ 2 * dr.count
  · rw [if_pos hfire]
    exact ⟨rfl, fun _ => ⟨rfl, rfl, rfl, rfl⟩, fun hc => absurd hfire hc⟩
  · rw [if_neg hfire]
    refine ⟨rfl, fun hc => absurd hc hfire, fun _ => ?_⟩
    by_cases hrc : (if m.eval ≤ -rr.eval then
        (if p % 2 = 0 then s.resign0 else s.resign1) + 1 else 0) = rr.count
    · simp [hrc]
    · simp [hrc, h2]

/-- Witness for C1 at a concrete state where the draw rule fires. -/
theorem claim_C1_witness :
    (adjStep ⟨100, 3⟩ ⟨1, 50, 1⟩ 1 ⟨0, 7⟩ ⟨0, 0, 1, 10, none, none⟩).rule_applied =
      some RuleType.Draw :=
  ((claim_C1_draw_check ⟨100, 3⟩ ⟨1, 50, 1⟩ 1 ⟨0, 7⟩ ⟨0, 0, 1, 10, none, none⟩ rfl rfl).2.1
    (by decide)).1

/-- C2: on a ply where the resign check runs (no latch, draw did not fire),
the streak counter of side p mod 2 is incremented when the eval is at most
minus resign.eval and reset to 0 otherwise, the other side's counter is
untouched, and the resign rule fires exactly when the updated counter equals
resign.count, producing the adjudicated outcome with length p+1, the
cumulative time so far and score10 0 for side 0 or 10 for side 1. -/
theorem claim_C2_resign_check (rr : ResignRule) (dr : DrawRule) (p : Nat) (m : MoveData)
    (s : AdjState) (h1 : s.adjudicated_outcome = none) (h2 : s.rule_applied = none)
    (h3 : ¬((p + 1) / 2 ≥ dr.from_move ∧
      (if |m.eval| ≤ dr.eval then s.draw_count + 1 else 0) ≥ 2 * dr.count)) :
    (if p % 2 = 0 then (adjStep rr dr p m s).resign0 else (adjStep rr dr p m s).resign1) =
      (if m.eval ≤ -rr.eval then (if p % 2 = 0 then s.resign0 else s.resign1) + 1 else 0) ∧
    (if p % 2 = 0 then (adjStep rr dr p m s).resign1 = s.resign1
      else (adjStep rr dr p m s).resign0 = s.resign0) ∧
    ((if m.eval ≤ -rr.eval then (if p % 2 = 0 then s.resign0 else s.resign1) + 1 else 0) =
        rr.count →
      (adjStep rr dr p m s).rule_applied = some RuleType.Resign ∧
      (adjStep rr dr p m s).adjudicated_outcome =
        some ⟨p + 1, s.total_time + m.time, if p % 2 = 0 then 0 else 10⟩) ∧
    ((if m.eval ≤ -rr.eval then (if p % 2 = 0 then s.resign0 else s.resign1) + 1 else 0) ≠
        rr.count →
      (adjStep rr dr p m s).rule_applied = none ∧
      (adjStep rr dr p m s).adjudicated_outcome = none) := by
  unfold adjStep
  dsimp only
  rw [if_pos h1, if_neg h3]
  refine ⟨?_, ?_, ?_, ?_⟩
  · by_cases hpar : p % 2 = 0 <;> simp [hpar]
  · by_cases hpar : p % 2 = 0 <;> simp [hpar]
  · intro hrc
    exact ⟨by simp [hrc], by simp [hrc]⟩
  · intro hrc
    exact ⟨by simp [hrc, h2], by simp [hrc, h1]⟩

/-- Witness for C2 at a concrete state where side 0 resigns. -/
theorem claim_C2_witness :
    (adjStep ⟨100, 2⟩ ⟨10000, 0, 10000⟩ 2 ⟨-150, 5⟩ ⟨1, 0, 0, 20, none, none⟩).rule_applied =
      some RuleType.Resign :=
  ((claim_C2_resign_check ⟨100, 2⟩ ⟨10000, 0, 10000⟩ 2 ⟨-150, 5⟩ ⟨1, 0, 0, 20, none, none⟩
    rfl rfl (by decide)).2.2.1 (by decide)).1

/-- C3: for every game and rules, the adjudicated time and length never
exceed the actual ones, the actual time is the sum of every ply's move time
(time keeps accumulating after a rule fires), once the latch is set no later
ply changes the adjudicated stats or the applied rule, and when no rule
fires the adjudicated outcome equals the actual one. -/
theorem claim_C3_invariants (g : GameData) (rr : ResignRule) (dr : DrawRule)
    (p : Nat) (ms : List MoveData) (s : AdjState) (st : GameStats)
    (h : s.adjudicated_outcome = some st) :
    (adjudicate_game g rr dr).adjudicated.time ≤ (adjudicate_game g rr dr).actual.time ∧
    (adjudicate_game g rr dr).adjudicated.length ≤ (adjudicate_game g rr dr).actual.length ∧
    (adjudicate_game g rr dr).actual.time = (g.move_data.map MoveData.time).sum ∧
    ((adjudicate_game g rr dr).rule_applied = none →
      (adjudicate_game g rr dr).adjudicated = (adjudicate_game g rr dr).actual) ∧
    (adjLoop rr dr p ms s).adjudicated_outcome = some st ∧
    (adjLoop rr dr p ms s).rule_applied = s.rule_applied := by
  have hp := adjudicate_props g rr dr
  have hl := adjLoop_latched rr dr ms p s (by rw [h]; simp)
  exact ⟨hp.2.2.2.1, hp.2.2.2.2.1, hp.1, hp.2.2.2.2.2, by rw [hl.1, h], hl.2⟩

/-- Witness for C3 at a concrete latched state. -/
theorem claim_C3_witness :
    (adjLoop ⟨100, 1⟩ ⟨1, 0, 1⟩ 0 [⟨5, 2⟩]
      ⟨0, 0, 0, 7, some RuleType.Draw, some ⟨1, 4, 5⟩⟩).adjudicated_outcome = some ⟨1, 4, 5⟩ :=
  (claim_C3_invariants ⟨10, [⟨0, 3⟩]⟩ ⟨100, 1⟩ ⟨1, 0, 1⟩ 0 [⟨5, 2⟩]
    ⟨0, 0, 0, 7, some RuleType.Draw, some ⟨1, 4, 5⟩⟩ ⟨1, 4, 5⟩ rfl).2.2.2.2.1

/-- C4 counterexample: the string 2147483648.00/1 1s is accepted by the
grammar (a well-formed derivation spells it exactly), yet parse produces no
MoveData: get_eval's parse of the integer capture 2147483648 leaves the i32
range, so the unwrap panics after the successful match, refuting the claim
that every grammar-accepted string parses to a MoveData with the documented
value. -/
theorem claim_C4_counterexample :
    (∃ a tail, Annot.wf a ∧ ("2147483648.00/1 1s").data = Annot.chars a ++ tail) ∧
    CommentParser.parseChecked ("2147483648.00/1 1s") = RustOutcome.panicked :=
  ⟨⟨Annot.mk SignTok.absent
      (EvalTok.num ['2', '1', '4', '7', '4', '8', '3', '6', '4', '8'] '0' '0') ['1'] ' ' ['1']
      none, [], by decide, by decide⟩, by decide⟩

/-- C4 (amended): every annotation built from the grammar whose numeric
conversions stay in machine range - the scaled evaluation magnitude fits in
i32 and the millisecond total fits in u32, the exact bounds the unwrap and
checked-scaling panics of get_eval and get_time impose - parses to the
documented value: eval is the sign times 10000 for a mate marker or integer
part times 100 plus the two fractional digits, and time is seconds times
1000 plus the L-digit fraction scaled by 10^(3-L); in particular the four
documented example strings parse to (-191, 31), (18, 450), (10000, 20) and
(-10000, 22). -/
theorem claim_C4_eval_time_amended (a : Annot) (tail : List Char) (h : a.wf)
    (he : a.evalInRange) (ht : a.timeInRange) :
    parseCommentChecked (a.chars ++ tail) = RustOutcome.ok ⟨a.evalVal, a.timeVal⟩ ∧
    CommentParser.parseChecked ("-1.91/13 0.031s") = RustOutcome.ok ⟨-191, 31⟩ ∧
    CommentParser.parseChecked ("+0.18/15 0.45s") = RustOutcome.ok ⟨18, 450⟩ ∧
    CommentParser.parseChecked ("+M17/21 0.020s") = RustOutcome.ok ⟨10000, 20⟩ ∧
    CommentParser.parseChecked ("-M26/18 0.022s") = RustOutcome.ok ⟨-10000, 22⟩ :=
  ⟨parseCommentChecked_complete a tail h he ht, by decide, by decide, by decide, by decide⟩

/-- Witness for the amended C4 on the derivation of the first documented
example, whose values are far inside the machine ranges. -/
theorem claim_C4_witness :
    parseCommentChecked ((Annot.mk SignTok.minus (EvalTok.num ['1'] '9' '1') ['1', '3'] ' '
        ['0'] (some ['0', '3', '1'])).chars ++ []) =
      RustOutcome.ok ⟨(Annot.mk SignTok.minus (EvalTok.num ['1'] '9' '1') ['1', '3'] ' '
          ['0'] (some ['0', '3', '1'])).evalVal,
        (Annot.mk SignTok.minus (EvalTok.num ['1'] '9' '1') ['1', '3'] ' ' ['0']
          (some ['0', '3', '1'])).timeVal⟩ :=
  (claim_C4_eval_time_amended (Annot.mk SignTok.minus (EvalTok.num ['1'] '9' '1') ['1', '3']
    ' ' ['0'] (some ['0', '3', '1'])) [] (by decide) (by decide) (by decide)).1

/-- C5: parsing succeeds only on inputs that start with a string of the
anchored grammar, so any input deviating from the grammar at the start
position produces no MoveData; in particular a missing slash, a missing
trailing s, and an evaluation with one or three fractional digits all fail
to parse. -/
theorem claim_C5_grammar_only (s : String) (md : MoveData)
    (h : CommentParser.parse s = some md) :
    (∃ a tail, Annot.wf a ∧ s.data = Annot.chars a ++ tail) ∧
    CommentParser.parse ("-1.91 0.031s") = none ∧
    CommentParser.parse ("-1.91/13 0.031") = none ∧
    CommentParser.parse ("-1.911/13 0.031s") = none ∧
    CommentParser.parse ("-1.9/13 0.031s") = none :=
  ⟨parseComment_sound s.data md h, by decide, by decide, by decide, by decide⟩

/-- Witness for C5 at a parseable concrete string. -/
theorem claim_C5_witness :
    ∃ a tail, Annot.wf a ∧ ("-1.91/13 0.031s").data = Annot.chars a ++ tail :=
  (claim_C5_grammar_only ("-1.91/13 0.031s") ⟨-191, 31⟩ (by decide)).1

/-- C6: batch mapping is fail-fast: when every game before position k maps
cleanly and game k fails, the whole batch fails with game_number k and that
game's error, independently of every game after position k (no partial
list); and when every game maps cleanly the result has exactly one GameData
per input game, in the same order. -/
theorem claim_C6_fail_fast (l1 : List Game) (g : Game) (l2 : List Game) (e : GameError)
    (gs : List Game)
    (h1 : ∀ g' ∈ l1, ∃ gd, map_single_game_data g' = Except.ok gd)
    (h2 : map_single_game_data g = Except.error e)
    (h3 : ∀ g' ∈ gs, ∃ gd, map_single_game_data g' = Except.ok gd) :
    map_game_data (l1 ++ g :: l2) = Except.error ⟨l1.length + 1, e⟩ ∧
    ∃ out, map_game_data gs = Except.ok out ∧ out.length = gs.length ∧
      gs.map map_single_game_data = out.map Except.ok := by
  constructor
  · have herr := mapGamesAux_first_err l1 0 g l2 e h1 h2
    simpa [map_game_data] using herr
  · obtain ⟨out, hout, hmap⟩ := mapGamesAux_all_ok gs 0 h3
    refine ⟨out, hout, ?_, hmap⟩
    have hlen := congrArg List.length hmap
    simpa using hlen.symm

/-- Witness for C6: a three-game batch whose second game has an unknown
termination fails with game number 2. -/
theorem claim_C6_witness :
    map_game_data ([⟨GameTermination.WhiteWins, []⟩] ++ ⟨GameTermination.Unknown, []⟩ ::
      [⟨GameTermination.BlackWins, []⟩]) =
      Except.error ⟨2, GameError.UnknownGameTermination⟩ :=
  (claim_C6_fail_fast [⟨GameTermination.WhiteWins, []⟩] ⟨GameTermination.Unknown, []⟩
    [⟨GameTermination.BlackWins, []⟩] GameError.UnknownGameTermination []
    (fun g' hg' => by
      simp only [List.mem_singleton] at hg'
      subst hg'
      exact ⟨⟨10, []⟩, rfl⟩)
    rfl
    (fun g' hg' => absurd hg' (List.not_mem_nil g'))).1

/-- C7: the aggregator's figures equal an independent fold over the ordered
outcome list: the per-category summed time saved and summed squared error
match the filtered-list sums, the per-category and overall mean squared
errors equal sum over 100 over the total game count (the denominator is the
total game count in every case), and each outcome's time saved is the
actual-minus-adjudicated difference when the scores agree and 0 otherwise,
never negative. -/
theorem claim_C7_aggregates (games : List GameData) (rr : ResignRule) (dr : DrawRule)
    (o : AdjudicationOutcome) (ho : o ∈ outcomesOf games rr dr) :
    (test_rule_stats games rr dr).resign_time_saved =
      specTimeSaved (outcomesOf games rr dr) RuleType.Resign ∧
    (test_rule_stats games rr dr).draw_time_saved =
      specTimeSaved (outcomesOf games rr dr) RuleType.Draw ∧
    (test_rule_stats games rr dr).resign_squared_error10 =
      specSquaredError (outcomesOf games rr dr) RuleType.Resign ∧
    (test_rule_stats games rr dr).draw_squared_error10 =
      specSquaredError (outcomesOf games rr dr) RuleType.Draw ∧
    category_mse (test_rule_stats games rr dr).resign_squared_error10 games.length =
      category_mse (specSquaredError (outcomesOf games rr dr) RuleType.Resign) games.length ∧
    category_mse (test_rule_stats games rr dr).draw_squared_error10 games.length =
      category_mse (specSquaredError (outcomesOf games rr dr) RuleType.Draw) games.length ∧
    overall_mse (test_rule_stats games rr dr) games.length =
      ((specSquaredError (outcomesOf games rr dr) RuleType.Resign : ℚ) +
        (specSquaredError (outcomesOf games rr dr) RuleType.Draw : ℚ)) / 100 /
        (games.length : ℚ) ∧
    o.time_saved = (if o.actual.score10 = o.adjudicated.score10 then
      (o.actual.time : Int) - (o.adjudicated.time : Int) else 0) ∧
    0 ≤ o.time_saved := by
  obtain ⟨e1, e2, e3, e4⟩ := agg_foldl rr dr games aggInit
  have t1 : (test_rule_stats games rr dr).resign_time_saved =
      specTimeSaved (outcomesOf games rr dr) RuleType.Resign := by
    simpa [test_rule_stats, aggInit] using e1
  have t2 : (test_rule_stats games rr dr).draw_time_saved =
      specTimeSaved (outcomesOf games rr dr) RuleType.Draw := by
    simpa [test_rule_stats, aggInit] using e2
  have t3 : (test_rule_stats games rr dr).resign_squared_error10 =
      specSquaredError (outcomesOf games rr dr) RuleType.Resign := by
    simpa [test_rule_stats, aggInit] using e3
  have t4 : (test_rule_stats games rr dr).draw_squared_error10 =
      specSquaredError (outcomesOf games rr dr) RuleType.Draw := by
    simpa [test_rule_stats, aggInit] using e4
  have hnn : 0 ≤ o.time_saved := by
    simp only [outcomesOf, List.mem_map] at ho
    obtain ⟨g, _, rfl⟩ := ho
    exact time_saved_nonneg g rr dr
  refine ⟨t1, t2, t3, t4, by rw [t3], by rw [t4], ?_, time_saved_eq o, hnn⟩
  simp only [overall_mse, t3, t4]

/-- Witness for C7 at a concrete one-game list. -/
theorem claim_C7_witness :
    0 ≤ (adjudicate_game ⟨5, []⟩ ⟨100, 1⟩ ⟨1, 0, 1⟩).time_saved :=
  (claim_C7_aggregates [⟨5, []⟩] ⟨100, 1⟩ ⟨1, 0, 1⟩
    (adjudicate_game ⟨5, []⟩ ⟨100, 1⟩ ⟨1, 0, 1⟩) (by decide)).2.2.2.2.2.2.2.2

/-- C8: concrete evidence that rule parsing is not total on inputs missing
the documented separators: a resign specification without a slash and a draw
specification without the slash-delimited count both hit an out-of-bounds
vector index (a panic), instead of returning the BadFormat rule-construction
error that non-numeric inputs receive. -/
theorem claim_C8_panics :
    parse_resign_rule ("250") = RustOutcome.panicked ∧
    parse_draw_rule ("34:30") = RustOutcome.panicked ∧
    parse_resign_rule ("abc") = RustOutcome.err ResignRuleParsingError.BadFormat ∧
    parse_draw_rule ("34") = RustOutcome.panicked :=
  ⟨by decide, by decide, by decide, by decide⟩

/-- C9: mapping a single game reports a missing comment at 0-indexed ply p
with the 0-based index, while an unparsable comment at the same position is
reported with the 1-based index p+1; the asymmetry is preserved. -/
theorem claim_C9_ply_asymmetry (t : GameTermination) (sc : Nat) (pre rest : List RawMove)
    (c : String) (ht : termScore10 t = some sc)
    (hpre : ∀ m ∈ pre, ∃ s md, m.comment = some s ∧ CommentParser.parse s = some md)
    (hc : CommentParser.parse c = none) :
    map_single_game_data ⟨t, pre ++ ⟨none⟩ :: rest⟩ =
      Except.error (GameError.MissingComment pre.length) ∧
    map_single_game_data ⟨t, pre ++ ⟨some c⟩ :: rest⟩ =
      Except.error (GameError.BadComment (pre.length + 1)) := by
  constructor
  · have hm := mapMoves_missing pre 0 rest hpre
    simp [map_single_game_data, ht, hm, Except.map]
  · have hb := mapMoves_bad pre 0 c rest hpre hc
    simp [map_single_game_data, ht, hb, Except.map]

/-- Witness for C9: a game whose second move has no comment fails with the
0-based ply index 1. -/
theorem claim_C9_witness :
    map_single_game_data ⟨GameTermination.WhiteWins,
      [⟨some ("+0.18/15 0.45s")⟩] ++ ⟨none⟩ :: []⟩ =
      Except.error (GameError.MissingComment 1) :=
  (claim_C9_ply_asymmetry GameTermination.WhiteWins 10 [⟨some ("+0.18/15 0.45s")⟩] []
    ("x") rfl
    (fun m hm => by
      simp only [List.mem_singleton] at hm
      subst hm
      exact ⟨"+0.18/15 0.45s", ⟨18, 450⟩, rfl, by decide⟩)
    (by decide)).1

/-- C10: the disabled sentinel rules produced by parsing the literal none
(resign eval 10000 count 10000; draw from_move 10000 eval 0 count 10000)
never fire on any game with fewer than 19999 plies: rule_applied is none and
the adjudicated outcome equals the actual outcome, whatever the evals. -/
theorem claim_C10_sentinels (g : GameData) (h : g.move_data.length < 19999) :
    parse_resign_rule ("none") = RustOutcome.ok ⟨10000, 10000⟩ ∧
    parse_draw_rule ("none") = RustOutcome.ok ⟨10000, 0, 10000⟩ ∧
    (adjudicate_game g ⟨10000, 10000⟩ ⟨10000, 0, 10000⟩).rule_applied = none ∧
    (adjudicate_game g ⟨10000, 10000⟩ ⟨10000, 0, 10000⟩).adjudicated =
      (adjudicate_game g ⟨10000, 10000⟩ ⟨10000, 0, 10000⟩).actual := by
  obtain ⟨hA, hB⟩ := adjudicate_sentinel g h
  exact ⟨by decide, by decide, hA, hB⟩

/-- Witness for C10 on a short game of mate-score and zero evaluations. -/
theorem claim_C10_witness :
    (adjudicate_game ⟨5, [⟨-10000, 5⟩, ⟨0, 5⟩, ⟨10000, 5⟩]⟩ ⟨10000, 10000⟩
      ⟨10000, 0, 10000⟩).rule_applied = none :=
  (claim_C10_sentinels ⟨5, [⟨-10000, 5⟩, ⟨0, 5⟩, ⟨10000, 5⟩]⟩ (by decide)).2.2.1
